import Mathlib

/-!
Verification of the SVO-extraction engine of the Cadete repository
(`src/pln.py`, `src/singleton.py`, `src/main.py`).

The Python code is shallowly embedded: each private method of class `PLN`
becomes a Lean function of the same (unmangled) name.  Python exceptions
(`IndexError` on out-of-range list indexing, `AttributeError` on attribute
access of `None`, `RecursionError` / non-termination of the unguarded
recursive tree walks) are made explicit through an `Except PyErr` result.
Recursive traversals carry a fuel argument consumed at every call step, so
that a computation which, in Python, recurses without bound is exactly a
computation returning `Except.error PyErr.recursionError` at every fuel.
-/

inductive PyErr where
  | indexError
  | attributeError
  | recursionError
deriving Repr, DecidableEq

instance {ε α : Type} [DecidableEq ε] [DecidableEq α] : DecidableEq (Except ε α) := fun a b =>
  match a, b with
  | .error e, .error f => decidable_of_iff (e = f) (by simp)
  | .ok x, .ok y => decidable_of_iff (x = y) (by simp)
  | .error _, .ok _ => isFalse (by simp)
  | .ok _, .error _ => isFalse (by simp)

/-- Embeds class `Token` of `src/pln.py`: surface text, position index,
coarse POS, fine tag, lemma (field `lema` here, since `lemma` is a Lean
keyword), and the optional dependency edge `(relation label, head index)`
produced by `__obterDependenciasDoToken`. -/
structure Token where
  texto : String
  indice : Nat
  pos : String
  tag : String
  lema : String
  dependencia : Option (String × Nat)
deriving Repr, DecidableEq

/-- Embeds class `Trecho` of `src/pln.py`: a sequence of tokens. -/
structure Trecho where
  tokens : List Token
deriving Repr, DecidableEq

/-- Embeds class `Sentenca` of `src/pln.py` (the token list; the `tipo` and
`svos` fields are outputs of the functions below and are kept external). -/
structure Sentenca where
  tokens : List Token
deriving Repr, DecidableEq

/-- Embeds class `SVO` of `src/pln.py`. -/
structure SVO where
  sujeito : Trecho
  verbo : Option Trecho
  objetoDireto : Option Trecho
  objetoIndireto : Option Trecho
deriving Repr, DecidableEq

def TIPO_SENTENCA_DECLARATIVA : Nat := 0

def TIPO_SENTENCA_CONDICIONAL : Nat := 1

def RELACOES_OBJETO : List String := ["dobj", "iobj", "dative"]

def RELACOES_OBJETO_DIRETO : List String := ["dobj"]

def RELACOES_OBJETO_INDIRETO : List String := ["iobj", "dative"]

/-- Character-list helper for `comecaCom`. -/
def inicioDe : List Char → List Char → Bool
  | [], _ => true
  | _ :: _, [] => false
  | a :: as, b :: bs => a == b && inicioDe as bs

/-- Embeds Python `s.startswith(p)` as used on relation labels. -/
def comecaCom (s p : String) : Bool := inicioDe p.data s.data

/-- Embeds Python `texto[:-1]` (drop the last character; empty on empty). -/
def semUltimo (s : String) : String := ⟨s.data.dropLast⟩

/-- Embeds `Trecho.__str__` of `src/pln.py`: concatenate the token texts,
each followed by a space, a `PUNCT` token first removing the space left by
the previous token; finally the trailing space is removed. -/
def Trecho.str (tr : Trecho) : String :=
  semUltimo (tr.tokens.foldl
    (fun texto token =>
      (if token.pos = "PUNCT" then semUltimo texto else texto) ++ token.texto ++ " ")
    "")

/-- Insertion step of `ordenarTokens` (stable, ascending by `indice`). -/
def inserirPorIndice (t : Token) : List Token → List Token
  | [] => [t]
  | u :: us => if u.indice ≤ t.indice then u :: inserirPorIndice t us else t :: u :: us

/-- Embeds Python `sorted(tokens, key = lambda x: x.indice)` used by
`Trecho.ordenar`: a stable sort ascending by token index. -/
def ordenarTokens (l : List Token) : List Token :=
  l.foldl (fun acc t => inserirPorIndice t acc) []

/-- Embeds `Trecho.ordenar` of `src/pln.py` (functionally). -/
def Trecho.ordenar (tr : Trecho) : Trecho := ⟨ordenarTokens tr.tokens⟩

/-- Embeds `PLN.__obterTipoDaSentenca` of `src/pln.py`.  The Python body
indexes `sentenca.tokens[0]` and (when the first token is an `ADP` whose
text is not `"if"`, via the short-circuiting `or`) `sentenca.tokens[1]`;
out-of-range indexing is an `IndexError`. -/
def obterTipoDaSentenca (s : Sentenca) : Except PyErr Nat :=
  match s.tokens.get? 0 with
  | none => .error .indexError
  | some t0 =>
    if t0.pos = "ADP" then
      if t0.texto = "if" then .ok TIPO_SENTENCA_CONDICIONAL
      else
        match s.tokens.get? 1 with
        | none => .error .indexError
        | some t1 =>
          if t1.texto = "case" then .ok TIPO_SENTENCA_CONDICIONAL
          else .ok TIPO_SENTENCA_DECLARATIVA
    else .ok TIPO_SENTENCA_DECLARATIVA

/-- Embeds the loop body of `PLN.__obterDescendentes` of `src/pln.py`:
scan `ts` for tokens whose head index equals `raizIdx`; each match is
appended followed by its own (recursively obtained) descendants.  The
Python recursion has no cycle guard; `fuel` makes each step explicit, so a
run that Python would never finish is `.error .recursionError` at every
fuel. -/
def descLoop : Nat → Sentenca → Nat → List Token → Except PyErr (List Token)
  | 0, _, _, _ => .error .recursionError
  | fuel + 1, s, raizIdx, ts =>
    match ts with
    | [] => .ok []
    | t :: rest =>
      match t.dependencia with
      | some d =>
        if d.2 = raizIdx then
          match descLoop fuel s t.indice s.tokens with
          | .error e => .error e
          | .ok sub =>
            match descLoop fuel s raizIdx rest with
            | .error e => .error e
            | .ok tail => .ok (t :: sub ++ tail)
        else descLoop fuel s raizIdx rest
      | none => descLoop fuel s raizIdx rest

/-- Embeds `PLN.__obterDescendentes` of `src/pln.py`. -/
def obterDescendentes (fuel : Nat) (s : Sentenca) (raiz : Token) : Except PyErr (List Token) :=
  descLoop fuel s raiz.indice s.tokens

/-- Embeds `PLN.__buscarAscendenteComPOSEspecifico` of `src/pln.py`:
follow head references upward until a token of POS `pos` is found
(`.ok (some _)`), the root is reached (`.ok none`), a head index falls
outside the token list (`IndexError`), or — the Python call receives
`None` for `folha` — an `AttributeError`.  There is no visited set, so a
cyclic head chain consumes fuel forever. -/
def buscarAscendenteComPOSEspecifico : Nat → Sentenca → Option Token → String → Except PyErr (Option Token)
  | _, _, none, _ => .error .attributeError
  | fuel, s, some folha, pos =>
    match folha.dependencia with
    | none => .ok none
    | some d =>
      match s.tokens.get? d.2 with
      | none => .error .indexError
      | some pai =>
        if pai.pos = pos then .ok (some pai)
        else
          match fuel with
          | 0 => .error .recursionError
          | f + 1 => buscarAscendenteComPOSEspecifico f s (some pai) pos

/-- Embeds the loop of `PLN.__obterComplementaresDoVerbo` of `src/pln.py`:
`for i in range(raiz.indice, len(sentenca.tokens) - 1)` — note the `- 1`:
the token at the last index is never scanned.  A scanned token whose head
is `raizIdx` and whose relation is not in `RELACOES_OBJETO` is appended
followed by its own complements (recursion restarts at its index). -/
def compLoop : Nat → Sentenca → Nat → Nat → Except PyErr (List Token)
  | 0, _, _, _ => .error .recursionError
  | fuel + 1, s, raizIdx, i =>
    if h : i < s.tokens.length - 1 then
      let t := s.tokens.get ⟨i, Nat.lt_of_lt_of_le h (Nat.sub_le _ _)⟩
      match t.dependencia with
      | some d =>
        if d.2 = raizIdx ∧ d.1 ∉ RELACOES_OBJETO then
          match compLoop fuel s t.indice t.indice with
          | .error e => .error e
          | .ok sub =>
            match compLoop fuel s raizIdx (i + 1) with
            | .error e => .error e
            | .ok tail => .ok (t :: sub ++ tail)
        else compLoop fuel s raizIdx (i + 1)
      | none => compLoop fuel s raizIdx (i + 1)
    else .ok []

/-- Embeds `PLN.__obterComplementaresDoVerbo` of `src/pln.py`. -/
def obterComplementaresDoVerbo (fuel : Nat) (s : Sentenca) (raiz : Token) : Except PyErr (List Token) :=
  compLoop fuel s raiz.indice raiz.indice

/-- Embeds the loop of `PLN.__obterDescendentesDaDireita` of `src/pln.py`:
`for i in range(raiz.indice, len(sentenca.tokens))`; a scanned token with
a dependency edge, POS different from `PUNCT` and head `raizIdx` is
appended followed by `__obterDescendentes` (the unrestricted traversal) of
it. -/
def direitaLoop : Nat → Sentenca → Nat → Nat → Except PyErr (List Token)
  | 0, _, _, _ => .error .recursionError
  | fuel + 1, s, raizIdx, i =>
    if h : i < s.tokens.length then
      let t := s.tokens.get ⟨i, h⟩
      match t.dependencia with
      | some d =>
        if t.pos ≠ "PUNCT" ∧ d.2 = raizIdx then
          match descLoop fuel s t.indice s.tokens with
          | .error e => .error e
          | .ok sub =>
            match direitaLoop fuel s raizIdx (i + 1) with
            | .error e => .error e
            | .ok tail => .ok (t :: sub ++ tail)
        else direitaLoop fuel s raizIdx (i + 1)
      | none => direitaLoop fuel s raizIdx (i + 1)
    else .ok []

/-- Embeds `PLN.__obterDescendentesDaDireita` of `src/pln.py`. -/
def obterDescendentesDaDireita (fuel : Nat) (s : Sentenca) (raiz : Token) : Except PyErr (List Token) :=
  direitaLoop fuel s raiz.indice raiz.indice

/-- Embeds `PLN.__extrairSujeitos` of `src/pln.py`: every token whose
relation label starts with `"nsubj"` yields the phrase of itself plus its
descendants, sorted by index. -/
def extrairSujeitos (fuel : Nat) (s : Sentenca) : Except PyErr (List Trecho) :=
  let nsubjs := s.tokens.filter (fun t => t.dependencia.any (fun d => comecaCom d.1 "nsubj"))
  nsubjs.mapM (fun token =>
    match obterDescendentes fuel s token with
    | .error e => .error e
    | .ok descendentes => .ok (Trecho.ordenar ⟨token :: descendentes⟩))

/-- Embeds `PLN.__obterVerboRelacionadoAoSujeito` of `src/pln.py`: find
the `nsubj` anchor in the subject phrase (`None` if absent, which the
ascent dereferences), ascend to the nearest `VERB`, and if found return
`Trecho([verbo] + complementares)` — the Python code does not call
`ordenar` on this phrase. -/
def obterVerboRelacionadoAoSujeito (fuel : Nat) (s : Sentenca) (sujeito : Trecho) : Except PyErr (Option Trecho) :=
  let tokenChave := sujeito.tokens.find? (fun t => t.dependencia.any (fun d => comecaCom d.1 "nsubj"))
  match buscarAscendenteComPOSEspecifico fuel s tokenChave "VERB" with
  | .error e => .error e
  | .ok none => .ok none
  | .ok (some verbo) =>
    match obterComplementaresDoVerbo fuel s verbo with
    | .error e => .error e
    | .ok comp => .ok (some ⟨verbo :: comp⟩)

/-- Embeds `PLN.__obterObjetosRelacionadosAoVerbo` of `src/pln.py`.  The
Python parameter `verbo` is the (possibly `None`) result of the verb
extraction: on `None` the dereference `verbo.tokens` raises `AttributeError`;
likewise `tokenChave` stays `None` when the phrase holds no `VERB` token
and `raiz.indice` inside `__obterDescendentesDaDireita` raises. -/
def obterObjetosRelacionadosAoVerbo (fuel : Nat) (s : Sentenca) (verbo : Option Trecho) (relacoes : List String) : Except PyErr (Option Trecho) :=
  match verbo with
  | none => .error .attributeError
  | some vb =>
    match vb.tokens.find? (fun t => t.pos == "VERB") with
    | none => .error .attributeError
    | some tokenChave =>
      match obterDescendentesDaDireita fuel s tokenChave with
      | .error e => .error e
      | .ok descendentes =>
        let objetos := descendentes.filter (fun t => t.dependencia.any (fun d => relacoes.contains d.1))
        if 0 < objetos.length then
          match objetos.foldlM
              (fun acc objeto =>
                (match obterDescendentes fuel s objeto with
                | .error e => .error e
                | .ok ds => .ok (acc ++ ds) : Except PyErr (List Token)))
              ([] : List Token) with
          | .error e => .error e
          | .ok complementares => .ok (some (Trecho.ordenar ⟨objetos ++ complementares⟩))
        else .ok none

/-- Embeds `PLN.__extrairSVOs` of `src/pln.py`: one `SVO` per subject;
the object extraction is invoked unconditionally on the (possibly absent)
verb phrase. -/
def extrairSVOs (fuel : Nat) (s : Sentenca) : Except PyErr (List SVO) :=
  match extrairSujeitos fuel s with
  | .error e => .error e
  | .ok sujeitos =>
    sujeitos.mapM (fun sujeito =>
      match obterVerboRelacionadoAoSujeito fuel s sujeito with
      | .error e => .error e
      | .ok verbo =>
        match obterObjetosRelacionadosAoVerbo fuel s verbo RELACOES_OBJETO_DIRETO with
        | .error e => .error e
        | .ok od =>
          match obterObjetosRelacionadosAoVerbo fuel s verbo RELACOES_OBJETO_INDIRETO with
          | .error e => .error e
          | .ok oi => .ok (SVO.mk sujeito verbo od oi))

/-- A sentence as produced by `PLN.__normalizarAnaliseSintatica`: token
indices are assigned sequentially `0..n-1` in surface order. -/
def Normalizada (s : Sentenca) : Prop :=
  s.tokens.map Token.indice = List.range s.tokens.length

instance (s : Sentenca) : Decidable (Normalizada s) := by
  unfold Normalizada; infer_instance

/-- Embeds `Singleton.__call__` of `src/singleton.py`, specialised to the
one class (`PLN`) that uses the metaclass: if the cache holds no instance,
build a fresh one (running `__init__`, counted by `inicializacoes`) and
cache it; either way return the cached instance. -/
structure EstadoSingleton where
  instancia : Option Nat
  proximoId : Nat
  inicializacoes : Nat
deriving Repr, DecidableEq

def chamarConstrutor : EstadoSingleton → Nat × EstadoSingleton
  | ⟨some i, n, c⟩ => (i, ⟨some i, n, c⟩)
  | ⟨none, n, c⟩ => (n, ⟨some n, n + 1, c + 1⟩)

def estadoInicial : EstadoSingleton := ⟨none, 0, 0⟩

/-- A sequence of `k` constructor calls `PLN()` starting from state `st`,
returning the list of returned instances and the final state. -/
def chamadas : Nat → EstadoSingleton → List Nat × EstadoSingleton
  | 0, st => ([], st)
  | k + 1, st =>
    let p := chamarConstrutor st
    let q := chamadas k p.2
    (p.1 :: q.1, q.2)

/-! ### Concrete sentences used by the theorems -/

def tThe : Token := ⟨"the", 0, "DET", "DT", "the", some ("det", 1)⟩

def tCat : Token := ⟨"cat", 1, "NOUN", "NN", "cat", some ("nsubj", 2)⟩

def tEats : Token := ⟨"eats", 2, "VERB", "VBZ", "eat", none⟩

def tFish : Token := ⟨"fish", 3, "NOUN", "NN", "fish", some ("dobj", 2)⟩

def tPonto : Token := ⟨".", 4, "PUNCT", ".", ".", some ("punct", 2)⟩

/-- Sentence "The cat eats fish." with edges cat→(nsubj, eats),
The→(det, cat), fish→(dobj, eats), .→(punct, eats). -/
def sGato : Sentenca := ⟨[tThe, tCat, tEats, tFish, tPonto]⟩

def tJohn : Token := ⟨"john", 0, "NOUN", "NNP", "john", some ("nsubj", 1)⟩

def tHappy : Token := ⟨"happy", 1, "ADJ", "JJ", "happy", none⟩

/-- A sentence where the head chain of the subject holds no `VERB` token: the
`nsubj` token `john` hangs off the adjectival root `happy`. -/
def sFeliz : Sentenca := ⟨[tJohn, tHappy]⟩

def tOn : Token := ⟨"on", 0, "ADP", "IN", "on", none⟩

/-- One-token sentence whose token has the adposition POS and text ≠ "if". -/
def sUmAdp : Sentenca := ⟨[tOn]⟩

def tIf : Token := ⟨"if", 0, "ADP", "IN", "if", none⟩

/-- One-token sentence whose token has the adposition POS and text "if". -/
def sUmIf : Sentenca := ⟨[tIf]⟩

def tJoao4 : Token := ⟨"john", 0, "NOUN", "NNP", "john", some ("nsubj", 1)⟩

def tAte4 : Token := ⟨"ate", 1, "VERB", "VBD", "eat", none⟩

def tQuickly4 : Token := ⟨"quickly", 2, "ADV", "RB", "quickly", some ("advmod", 1)⟩

def tUp4 : Token := ⟨"up", 3, "PRT", "RP", "up", some ("prt", 1)⟩

def tYesterday4 : Token := ⟨"yesterday", 4, "NOUN", "NN", "yesterday", some ("npadvmod", 2)⟩

def tPonto4 : Token := ⟨".", 5, "PUNCT", ".", ".", some ("punct", 1)⟩

/-- A sentence where a verb complement (`quickly` at index 2) has its own
dependent (`yesterday` at index 4) beyond a later sibling (`up` at 3). -/
def sVerbo4 : Sentenca := ⟨[tJoao4, tAte4, tQuickly4, tUp4, tYesterday4, tPonto4]⟩

def tVirg5 : Token := ⟨",", 0, "PUNCT", ",", ",", some ("punct", 2)⟩

def tRan5 : Token := ⟨"ran", 1, "VERB", "VBD", "run", none⟩

def tDog5 : Token := ⟨"dog", 2, "NOUN", "NN", "dog", some ("dobj", 1)⟩

/-- A sentence where the rightward dependent `dog` of root `ran` has its
own dependent at index 0, a punctuation token left of the root. -/
def sDir5 : Sentenca := ⟨[tVirg5, tRan5, tDog5]⟩

def tWake6 : Token := ⟨"wake", 0, "VERB", "VB", "wake", none⟩

def tUp6 : Token := ⟨"up", 1, "PRT", "RP", "up", some ("prt", 0)⟩

/-- A sentence whose last token is a qualifying complement of the verb. -/
def sComp6 : Sentenca := ⟨[tWake6, tUp6]⟩

def tA2 : Token := ⟨"a", 0, "NOUN", "NN", "a", some ("x", 1)⟩

def tB2 : Token := ⟨"b", 1, "NOUN", "NN", "b", some ("y", 0)⟩

/-- A sentence whose dependency edges form a cycle: the head of `a` is
`b` and the head of `b` is `a`. -/
def sCic2 : Sentenca := ⟨[tA2, tB2]⟩

def tHe8 : Token := ⟨"he", 0, "PRON", "PRP", "he", none⟩

def tIs8 : Token := ⟨"is", 1, "VERB", "VBZ", "be", none⟩

def tHappy8 : Token := ⟨"happy", 2, "ADJ", "JJ", "happy", none⟩

def tVirg8 : Token := ⟨",", 3, "PUNCT", ",", ",", none⟩

/-! ### Theorems for the claims -/

/-- C1: the claim says that when verb resolution finds no verb the SVO
record is still emitted with absent verb/object fields and no error.  In
the code, `__extrairSVOs` passes the `None` verb straight to
`__obterObjetosRelacionadosAoVerbo`, whose `verbo.tokens` dereference
raises `AttributeError`.  On `sFeliz` the single subject `[john]` resolves
to no verb (`.ok none`), and `extrairSVOs` then fails with
`attributeError` instead of emitting the record. -/
theorem claimC1 :
    extrairSujeitos 30 sFeliz = .ok [⟨[tJohn]⟩] ∧
    obterVerboRelacionadoAoSujeito 30 sFeliz ⟨[tJohn]⟩ = .ok none ∧
    extrairSVOs 30 sFeliz = .error .attributeError := by
  refine ⟨by decide, by decide, by decide⟩

/-- C3: the claim says a sentence with fewer than two tokens always
classifies Declarative with no out-of-range access.  In the code, a
one-token sentence whose token is an `ADP` with text ≠ "if" evaluates
`sentenca.tokens[1]` and raises `IndexError`; and a one-token `ADP`
sentence with text "if" classifies Conditional, not Declarative. -/
theorem claimC3 :
    obterTipoDaSentenca sUmAdp = .error .indexError ∧
    obterTipoDaSentenca sUmIf = .ok TIPO_SENTENCA_CONDICIONAL := by
  refine ⟨by decide, by decide⟩

/-- C4: the claim says the verb phrase is sorted ascending by index
before rendering.  `__obterVerboRelacionadoAoSujeito` never calls
`ordenar` on the phrase it builds, and on `sVerbo4` the phrase comes back
in discovery order with indices `[1, 2, 4, 3]`, rendering as
"ate quickly yesterday up" rather than the surface order
"ate quickly up yesterday". -/
theorem claimC4 :
    obterVerboRelacionadoAoSujeito 30 sVerbo4 ⟨[tJoao4]⟩ =
      .ok (some ⟨[tAte4, tQuickly4, tYesterday4, tUp4]⟩) ∧
    List.map Token.indice [tAte4, tQuickly4, tYesterday4, tUp4] = [1, 2, 4, 3] ∧
    ¬ List.Sorted (· ≤ ·) (List.map Token.indice [tAte4, tQuickly4, tYesterday4, tUp4]) ∧
    Trecho.str ⟨[tAte4, tQuickly4, tYesterday4, tUp4]⟩ = "ate quickly yesterday up" ∧
    Trecho.str (Trecho.ordenar ⟨[tAte4, tQuickly4, tYesterday4, tUp4]⟩) =
      "ate quickly up yesterday" := by
  refine ⟨by decide, by decide, by decide, by decide, by decide⟩

/-- C5 counterexample: the claim says every token returned by
`rightwardDescendants` has index at least the index of the root and is not
punctuation, including tokens found by recursive expansion.  On `sDir5`,
the expansion of the direct dependent `dog` uses the unrestricted
`__obterDescendentes` and returns the punctuation token at index 0,
left of the root at index 1. -/
theorem claimC5_cex :
    obterDescendentesDaDireita 30 sDir5 tRan5 = .ok [tDog5, tVirg5] ∧
    tVirg5.indice < tRan5.indice ∧
    tVirg5.pos = "PUNCT" := by
  refine ⟨by decide, by decide, by decide⟩

/-- C6 counterexample: the claim says a qualifying dependent located at
the last index of the sentence is included in `complementDescendants`.
The loop in `__obterComplementaresDoVerbo` runs over
`range(raiz.indice, len(tokens) - 1)`, so the qualifying token `up` at
the last index of `sComp6` is never scanned and the result is empty. -/
theorem claimC6_cex :
    obterComplementaresDoVerbo 30 sComp6 tWake6 = .ok [] ∧
    tUp6 ∈ sComp6.tokens ∧
    tUp6.dependencia = some ("prt", tWake6.indice) ∧
    tWake6.indice ≤ tUp6.indice ∧
    tUp6.indice = sComp6.tokens.length - 1 ∧
    "prt" ∉ RELACOES_OBJETO := by
  refine ⟨by decide, by decide, by decide, by decide, by decide, by decide⟩

/-- C7: on "The cat eats fish." with the given edges, `extrairSVOs`
produces exactly one SVO whose subject renders "the cat", verb renders
"eats", direct object renders "fish", and indirect object is absent. -/
theorem claimC7 :
    extrairSVOs 30 sGato = .ok [⟨⟨[tThe, tCat]⟩, some ⟨[tEats]⟩, some ⟨[tFish]⟩, none⟩] ∧
    Trecho.str ⟨[tThe, tCat]⟩ = "the cat" ∧
    Trecho.str ⟨[tEats]⟩ = "eats" ∧
    Trecho.str ⟨[tFish]⟩ = "fish" := by
  refine ⟨by decide, by decide, by decide, by decide⟩

/-- C8: rendering joins token texts with single spaces, a punctuation
token suppressing the space before it, and the trailing separator is
trimmed; the phrase ["he","is","happy",","] renders "he is happy," and
the empty phrase renders "". -/
theorem claimC8 :
    Trecho.str ⟨[tHe8, tIs8, tHappy8, tVirg8]⟩ = "he is happy," ∧
    Trecho.str ⟨[]⟩ = "" := by
  refine ⟨by decide, by decide⟩

/-- After the Singleton cache holds instance `i`, every further call
returns `i` and leaves the state unchanged. -/
theorem chamadasCache : ∀ k i n c, chamadas k ⟨some i, n, c⟩ = (List.replicate k i, ⟨some i, n, c⟩) := by
  intro k
  induction k with
  | zero => intro i n c; rfl
  | succ k ih =>
    intro i n c
    simp [chamadas, chamarConstrutor, ih, List.replicate]

/-- C10: constructing `PLN()` is idempotent at the process level: in any
sequence of `k + 1` constructor calls through `Singleton.__call__`, every
call returns the instance created by the first (all results equal
instance 0) and `__init__` runs exactly once (`inicializacoes = 1`). -/
theorem claimC10 : ∀ k, chamadas (k + 1) estadoInicial =
    (List.replicate (k + 1) 0, ⟨some 0, 1, 1⟩) := by
  intro k
  simp [chamadas, estadoInicial, chamarConstrutor, chamadasCache, List.replicate]

/-- On the cyclic sentence, the upward walk from either token diverges:
it returns `recursionError` at every fuel. -/
theorem buscaCiclica : ∀ fuel,
    buscarAscendenteComPOSEspecifico fuel sCic2 (some tA2) "VERB" = .error .recursionError ∧
    buscarAscendenteComPOSEspecifico fuel sCic2 (some tB2) "VERB" = .error .recursionError := by
  intro fuel
  induction fuel with
  | zero => exact ⟨by decide, by decide⟩
  | succ f ih => exact ⟨ih.2, ih.1⟩

/-- On the cyclic sentence, every state of the descendant loop diverges. -/
theorem descCiclica : ∀ fuel,
    descLoop fuel sCic2 0 [tA2, tB2] = .error .recursionError ∧
    descLoop fuel sCic2 0 [tB2] = .error .recursionError ∧
    descLoop fuel sCic2 1 [tA2, tB2] = .error .recursionError := by
  intro fuel
  induction fuel with
  | zero => exact ⟨by decide, by decide, by decide⟩
  | succ f ih =>
    refine ⟨ih.2.1, ?_, ?_⟩
    · show (match descLoop f sCic2 1 ([tA2, tB2]) with
        | .error e => .error e
        | .ok sub =>
          match descLoop f sCic2 0 ([] : List Token) with
          | .error e => .error e
          | .ok tail => .ok (tB2 :: sub ++ tail)) = Except.error PyErr.recursionError
      rw [ih.2.2]
    · show (match descLoop f sCic2 0 ([tA2, tB2]) with
        | .error e => .error e
        | .ok sub =>
          match descLoop f sCic2 1 ([tB2]) with
          | .error e => .error e
          | .ok tail => .ok (tA2 :: sub ++ tail)) = Except.error PyErr.recursionError
      rw [ih.1]

/-- C2: the claim says that on a sentence whose dependency edges form a
cycle, both `descendants` and `ascendToPOS` terminate and report a
malformed-tree error.  The code has no visited-index set: on the cyclic
sentence `sCic2` both traversals recurse without bound — at every fuel
the embedded computation is still `recursionError` (in Python, an
uncaught `RecursionError` once the interpreter stack limit is hit), and
no malformed-tree error exists anywhere in the program. -/
theorem claimC2 : ∀ fuel,
    buscarAscendenteComPOSEspecifico fuel sCic2 (some tA2) "VERB" = .error .recursionError ∧
    obterDescendentes fuel sCic2 tA2 = .error .recursionError :=
  fun fuel => ⟨(buscaCiclica fuel).1, (descCiclica fuel).1⟩

/-- Whatever token the upward walk returns has the requested POS. -/
theorem buscaEncontraPOS : ∀ fuel s folha pos v,
    buscarAscendenteComPOSEspecifico fuel s folha pos = .ok (some v) → v.pos = pos := by
  intro fuel
  induction fuel with
  | zero =>
    intro s folha pos v h
    cases folha with
    | none => simp [buscarAscendenteComPOSEspecifico] at h
    | some t =>
      rw [buscarAscendenteComPOSEspecifico] at h
      split at h
      · simp at h
      · split at h
        · simp at h
        · split at h
          · rename_i pai _ hp
            simp only [Except.ok.injEq, Option.some.injEq] at h
            rw [← h]; exact hp
          · simp at h
  | succ f ih =>
    intro s folha pos v h
    cases folha with
    | none => simp [buscarAscendenteComPOSEspecifico] at h
    | some t =>
      rw [buscarAscendenteComPOSEspecifico] at h
      split at h
      · simp at h
      · split at h
        · simp at h
        · split at h
          · rename_i pai _ hp
            simp only [Except.ok.injEq, Option.some.injEq] at h
            rw [← h]; exact hp
          · rename_i pai _ hp
            exact ih s (some pai) pos v h

/-- C9: every phrase returned by verb extraction starts with the resolved
verb token, whose coarse POS is "VERB"; hence the head-verb scan used by
object extraction (`find?` for the first POS-"VERB" token) finds it. -/
theorem claimC9 : ∀ fuel s (sujeito : Trecho) (tr : Trecho),
    obterVerboRelacionadoAoSujeito fuel s sujeito = .ok (some tr) →
    ∃ v resto, tr.tokens = v :: resto ∧ v.pos = "VERB" ∧
      tr.tokens.find? (fun t => t.pos == "VERB") = some v := by
  intro fuel s sujeito tr h
  simp only [obterVerboRelacionadoAoSujeito] at h
  rcases hb : buscarAscendenteComPOSEspecifico fuel s
      (sujeito.tokens.find? (fun t => t.dependencia.any (fun d => comecaCom d.1 "nsubj"))) "VERB"
    with e | ov
  · rw [hb] at h; simp at h
  · rw [hb] at h
    cases ov with
    | none => simp at h
    | some verbo =>
      dsimp only at h
      rcases hc : obterComplementaresDoVerbo fuel s verbo with e | comp
      · rw [hc] at h; simp at h
      · rw [hc] at h
        simp only [Except.ok.injEq, Option.some.injEq] at h
        have hv : verbo.pos = "VERB" := buscaEncontraPOS fuel s _ "VERB" verbo hb
        subst h
        refine ⟨verbo, comp, rfl, hv, ?_⟩
        simp [List.find?, hv]

/-- C9 witness: on "The cat eats fish." the subject phrase resolves to
the verb phrase `[eats]`, which indeed starts with a "VERB" token found
by the head-verb scan. -/
theorem claimC9_wit : ∃ v resto, (Trecho.mk [tEats]).tokens = v :: resto ∧ v.pos = "VERB" ∧
    (Trecho.mk [tEats]).tokens.find? (fun t => t.pos == "VERB") = some v :=
  claimC9 30 sGato ⟨[tThe, tCat]⟩ ⟨[tEats]⟩ (by decide)

/-- Completeness of the complement loop over the range it scans: a token
at position `j` with `i ≤ j < len - 1`, head `raizIdx` and a relation
outside `RELACOES_OBJETO` is in the returned list. -/
theorem compLoopMem : ∀ fuel (s : Sentenca) (raizIdx i l : _) (j : Nat) (t : Token) (rel : String),
    compLoop fuel s raizIdx i = .ok l →
    i ≤ j → j < s.tokens.length - 1 →
    s.tokens.get? j = some t →
    t.dependencia = some (rel, raizIdx) →
    rel ∉ RELACOES_OBJETO →
    t ∈ l := by
  intro fuel
  induction fuel with
  | zero =>
    intro s raizIdx i l j t rel hok
    simp [compLoop] at hok
  | succ f ih =>
    intro s raizIdx i l j t rel hok hij hjlen hget hdep hrel
    rw [compLoop] at hok
    split at hok
    · rename_i hi
      dsimp only at hok
      rcases Nat.eq_or_lt_of_le hij with rfl | hlt
      · have htok : s.tokens.get ⟨i, Nat.lt_of_lt_of_le hi (Nat.sub_le _ _)⟩ = t := by
          have hq := List.get?_eq_get (l := s.tokens) (Nat.lt_of_lt_of_le hi (Nat.sub_le _ _))
          rw [hq] at hget
          exact Option.some.inj hget
        rw [htok, hdep] at hok
        dsimp only at hok
        rw [if_pos ⟨rfl, hrel⟩] at hok
        split at hok
        · simp at hok
        · rename_i sub hsub
          split at hok
          · simp at hok
          · rename_i tail htail
            simp only [Except.ok.injEq] at hok
            rw [← hok]
            exact List.mem_cons_self t _
      · split at hok
        · split at hok
          · split at hok
            · simp at hok
            · rename_i sub hsub
              split at hok
              · simp at hok
              · rename_i tail htail
                simp only [Except.ok.injEq] at hok
                have hmem : t ∈ tail := ih s raizIdx (i + 1) tail j t rel htail hlt hjlen hget hdep hrel
                rw [← hok]
                exact List.mem_cons_of_mem _ (List.mem_append_right sub hmem)
          · exact ih s raizIdx (i + 1) l j t rel hok hlt hjlen hget hdep hrel
        · exact ih s raizIdx (i + 1) l j t rel hok hlt hjlen hget hdep hrel
    · rename_i hi
      exact absurd (Nat.lt_of_le_of_lt hij hjlen) hi

def tWakeW : Token := ⟨"wake", 0, "VERB", "VB", "wake", none⟩

def tUpW : Token := ⟨"up", 1, "PRT", "RP", "up", some ("prt", 0)⟩

def tPontoW : Token := ⟨".", 2, "PUNCT", ".", ".", some ("punct", 0)⟩

/-- Like `sComp6` but with a final punctuation token, so the qualifying
complement `up` sits strictly before the last index. -/
def sCompW : Sentenca := ⟨[tWakeW, tUpW, tPontoW]⟩

/-- C6 (amended): `__obterComplementaresDoVerbo` contains every token
whose head is the root, whose relation label is outside the excluded
object-relation set, and whose position `j` satisfies
`raiz.indice ≤ j < len(tokens) - 1`; the token at the last index of the
sentence is outside the scanned range (see `claimC6_cex`). -/
theorem claimC6 : ∀ fuel (s : Sentenca) (raiz : Token) (l : List Token) (j : Nat) (t : Token) (rel : String),
    obterComplementaresDoVerbo fuel s raiz = .ok l →
    raiz.indice ≤ j → j < s.tokens.length - 1 →
    s.tokens.get? j = some t →
    t.dependencia = some (rel, raiz.indice) →
    rel ∉ RELACOES_OBJETO →
    t ∈ l :=
  fun fuel s raiz l j t rel h => compLoopMem fuel s raiz.indice raiz.indice l j t rel h

/-- C6 witness: on `sCompW` the complement loop returns `[up]`, and the
qualifying token `up` at position 1 (strictly before the last index) is
indeed a member. -/
theorem claimC6_wit : tUpW ∈ [tUpW] :=
  claimC6 30 sCompW tWakeW [tUpW] 1 tUpW "prt" (by decide) (by decide) (by decide)
    (by decide) (by decide) (by decide)

/-- Relation `Subordinado s t i`: token `t` has a chain of head
references inside sentence `s` reaching the token index `i` (that is,
`t` is a transitive dependent of the token at index `i`). -/
inductive Subordinado (s : Sentenca) : Token → Nat → Prop where
  | direto {t : Token} {r : String} {i : Nat} :
      t.dependencia = some (r, i) → Subordinado s t i
  | indireto {t u : Token} {r : String} {i : Nat} :
      u ∈ s.tokens → Subordinado s t u.indice → u.dependencia = some (r, i) →
      Subordinado s t i

/-- Every token collected by the unrestricted descendant loop is a
transitive dependent of the root index of the loop. -/
theorem descLoopSub : ∀ fuel (s : Sentenca) (raizIdx : Nat) (ts l : List Token),
    (∀ x ∈ ts, x ∈ s.tokens) → descLoop fuel s raizIdx ts = .ok l →
    ∀ t ∈ l, Subordinado s t raizIdx := by
  intro fuel
  induction fuel with
  | zero =>
    intro s raizIdx ts l hts hok
    simp [descLoop] at hok
  | succ f ih =>
    intro s raizIdx ts l hts hok t htl
    rw [descLoop.eq_def] at hok
    dsimp only at hok
    cases ts with
    | nil =>
      dsimp only at hok
      simp only [Except.ok.injEq] at hok
      rw [← hok] at htl
      cases htl
    | cons t0 rest =>
      dsimp only at hok
      split at hok
      · rename_i d hd
        obtain ⟨dr, di⟩ := d
        split at hok
        · rename_i hg
          dsimp only at hg
          rw [hg] at hd
          split at hok
          · simp at hok
          · rename_i sub hsubok
            split at hok
            · simp at hok
            · rename_i tail htailok
              simp only [Except.ok.injEq] at hok
              rw [← hok] at htl
              rcases List.mem_cons.mp htl with rfl | hmem
              · exact Subordinado.direto hd
              · rcases List.mem_append.mp hmem with hs | ht
                · have hchain : Subordinado s t t0.indice :=
                    ih s t0.indice s.tokens sub (fun x hx => hx) hsubok t hs
                  exact Subordinado.indireto (hts t0 (List.mem_cons_self _ _)) hchain hd
                · exact ih s raizIdx rest tail
                    (fun x hx => hts x (List.mem_cons_of_mem _ hx)) htailok t ht
        · exact ih s raizIdx rest l
            (fun x hx => hts x (List.mem_cons_of_mem _ hx)) hok t htl
      · exact ih s raizIdx rest l
          (fun x hx => hts x (List.mem_cons_of_mem _ hx)) hok t htl

/-- In a normalized sentence the token at position `i` carries index `i`. -/
theorem normalizadaIndice : ∀ (s : Sentenca), Normalizada s →
    ∀ (i : Nat) (hi : i < s.tokens.length), (s.tokens.get ⟨i, hi⟩).indice = i := by
  intro s hn i hi
  have h3 : (s.tokens.map Token.indice).get? i = (List.range s.tokens.length).get? i := by
    rw [hn]
  rw [List.get?_map, List.get?_eq_get hi, List.get?_range hi] at h3
  exact Option.some.inj h3

/-- Characterization of the rightward loop: every returned token is
either a direct match (position ≥ the loop start, hence index ≥ root
under normalization, non-punctuation, head = root) or a transitive
dependent of some direct match collected by the unrestricted expansion. -/
theorem direitaLoopCarac : ∀ fuel (s : Sentenca) (raizIdx i : Nat) (l : List Token),
    Normalizada s → raizIdx ≤ i →
    direitaLoop fuel s raizIdx i = .ok l →
    ∀ t ∈ l,
      (raizIdx ≤ t.indice ∧ t.pos ≠ "PUNCT" ∧ ∃ r, t.dependencia = some (r, raizIdx)) ∨
      (∃ c, c ∈ l ∧ raizIdx ≤ c.indice ∧ c.pos ≠ "PUNCT" ∧ Subordinado s t c.indice) := by
  intro fuel
  induction fuel with
  | zero =>
    intro s raizIdx i l hn hri hok
    simp [direitaLoop] at hok
  | succ f ih =>
    intro s raizIdx i l hn hri hok t htl
    rw [direitaLoop] at hok
    split at hok
    · rename_i hi
      dsimp only at hok
      split at hok
      · rename_i d hd
        split at hok
        · rename_i hg
          obtain ⟨hpos, hhead⟩ := hg
          split at hok
          · simp at hok
          · rename_i sub hsubok
            split at hok
            · simp at hok
            · rename_i tail htailok
              simp only [Except.ok.injEq] at hok
              rw [← hok] at htl
              have hidx : (s.tokens.get ⟨i, hi⟩).indice = i := normalizadaIndice s hn i hi
              rcases List.mem_cons.mp htl with rfl | hmem
              · left
                refine ⟨?_, hpos, d.1, ?_⟩
                · rw [hidx]; exact hri
                · rw [hd]
                  rw [← hhead]
              · rcases List.mem_append.mp hmem with hs | ht
                · right
                  refine ⟨s.tokens.get ⟨i, hi⟩, ?_, ?_, hpos, ?_⟩
                  · rw [← hok]; exact List.mem_cons_self _ _
                  · rw [hidx]; exact hri
                  · exact descLoopSub f s (s.tokens.get ⟨i, hi⟩).indice s.tokens sub
                      (fun x hx => hx) hsubok t hs
                · rcases ih s raizIdx (i + 1) tail hn (Nat.le_succ_of_le hri) htailok t ht
                    with hl | ⟨c, hc, hc1, hc2, hc3⟩
                  · exact Or.inl hl
                  · right
                    refine ⟨c, ?_, hc1, hc2, hc3⟩
                    rw [← hok]
                    exact List.mem_cons_of_mem _ (List.mem_append_right sub hc)
        · exact ih s raizIdx (i + 1) l hn (Nat.le_succ_of_le hri) hok t htl
      · exact ih s raizIdx (i + 1) l hn (Nat.le_succ_of_le hri) hok t htl
    · rename_i hi
      simp only [Except.ok.injEq] at hok
      rw [← hok] at htl
      cases htl

/-- C5 (amended): for a normalized sentence, every token returned by
`__obterDescendentesDaDireita` is either a direct match — index at
least the root index, not punctuation, and head equal to the root index — or a
transitive dependent of such a direct match, collected through the
unrestricted `__obterDescendentes` expansion; the expanded tokens
themselves need not satisfy the index bound or exclude punctuation (see
`claimC5_cex`). -/
theorem claimC5 : ∀ fuel (s : Sentenca) (raiz : Token) (l : List Token),
    Normalizada s →
    obterDescendentesDaDireita fuel s raiz = .ok l →
    ∀ t ∈ l,
      (raiz.indice ≤ t.indice ∧ t.pos ≠ "PUNCT" ∧ ∃ r, t.dependencia = some (r, raiz.indice)) ∨
      (∃ c, c ∈ l ∧ raiz.indice ≤ c.indice ∧ c.pos ≠ "PUNCT" ∧ Subordinado s t c.indice) :=
  fun fuel s raiz l hn h =>
    direitaLoopCarac fuel s raiz.indice raiz.indice l hn (Nat.le_refl _) h

/-- C5 witness: on `sDir5` the returned punctuation token at index 0 is
not a direct match, so the theorem places it as a transitive dependent of
the direct match `dog`. -/
theorem claimC5_wit :
    (tRan5.indice ≤ tVirg5.indice ∧ tVirg5.pos ≠ "PUNCT" ∧
      ∃ r, tVirg5.dependencia = some (r, tRan5.indice)) ∨
    (∃ c, c ∈ [tDog5, tVirg5] ∧ tRan5.indice ≤ c.indice ∧ c.pos ≠ "PUNCT" ∧
      Subordinado sDir5 tVirg5 c.indice) :=
  claimC5 30 sDir5 tRan5 [tDog5, tVirg5] (by decide) (by decide) tVirg5 (by decide)
